import Mathlib

/-!
Verification development for the tezit-relay server.

The data model and operations below are shallow embeddings of the
repository sources: the ACL service, the contact routes, the audit writer
and the database schema are translated directly; route handlers and
federation services whose implementation files are absent from the
snapshot are modelled from the specification (and, where the unit tests
pin concrete behaviour, from those tests), as marked in each doc comment.
-/

namespace TezitRelay

/-- Scope fields of a Tez as consumed by the ACL service
(src/unnamed/part_001, assertTezAccess parameter). -/
structure TezScope where
  teamId : Option String
  conversationId : Option String
  senderUserId : String
deriving DecidableEq, Repr

/-- Membership tables consulted by the ACL service: rows of
team_members as (teamId, userId) and conversation_members as
(conversationId, userId) (src/unnamed/part_000). -/
structure AclDb where
  teamMembers : List (String × String)
  conversationMembers : List (String × String)
deriving DecidableEq, Repr

/-- isTeamMember (src/unnamed/part_001 lines 12-23): select from
team_members where team_id = teamId and user_id = userId, limit 1;
membership holds iff some row matches. -/
def isTeamMember (db : AclDb) (userId teamId : String) : Bool :=
  db.teamMembers.any (fun r => r.1 = teamId && r.2 = userId)

/-- isConversationMember (src/unnamed/part_001 lines 49-65): select from
conversation_members where conversation_id = conversationId and
user_id = userId, limit 1. -/
def isConversationMember (db : AclDb) (userId conversationId : String) : Bool :=
  db.conversationMembers.any (fun r => r.1 = conversationId && r.2 = userId)

/-- assertTezAccess (src/unnamed/part_001 lines 85-106): sender always has
access; else team membership when teamId is set; else conversation
membership when conversationId is set; else a FORBIDDEN error. -/
def assertTezAccess (db : AclDb) (userId : String) (theTez : TezScope) :
    Except String Unit :=
  if theTez.senderUserId = userId then .ok ()
  else if (match theTez.teamId with
           | some tid => isTeamMember db userId tid
           | none => false) then .ok ()
  else if (match theTez.conversationId with
           | some cid => isConversationMember db userId cid
           | none => false) then .ok ()
  else .error "FORBIDDEN"

/-- The access predicate as the specification words it (spec section 4.5):
the actor is the sender, or teamId is set and the actor is a member of
that team, or conversationId is set and the actor is a member of that
conversation. -/
def mayAccess (db : AclDb) (userId : String) (t : TezScope) : Prop :=
  t.senderUserId = userId ∨
  (∃ tid, t.teamId = some tid ∧ isTeamMember db userId tid = true) ∨
  (∃ cid, t.conversationId = some cid ∧ isConversationMember db userId cid = true)

/-- A persisted Tez row, restricted to the fields the read path needs
(src/unnamed/part_000, tez table). -/
structure TezRow where
  id : String
  teamId : Option String
  conversationId : Option String
  senderUserId : String
  surfaceText : String
deriving DecidableEq, Repr

/-- An audit journal row (src/unnamed/part_000, audit_log table; the
team_id column is NOT NULL, so the stored value is modelled as an Option
that a valid row must fill). -/
structure AuditEntry where
  teamId : Option String
  actorUserId : String
  action : String
  targetType : String
  targetId : String
deriving DecidableEq, Repr

/-- Outcome codes of the user-facing read path. -/
inductive ApiError where
  | NOT_FOUND
  | FORBIDDEN
deriving DecidableEq, Repr

/-- Modelled from the spec: the GET /tez/:id handler (spec section 4.6,
get) whose route file is absent from the snapshot. Resolve the Tez (404
if missing), run assertTezAccess (the source ACL above), and on success
return the row and append a tez.read audit entry for the reading actor.
Per audit.test.ts (records multiple reads for multiple accesses) the
entry is appended for every reader, the sender included. -/
def getTez (db : AclDb) (store : List TezRow) (audit : List AuditEntry)
    (userId tezId : String) : Except ApiError TezRow × List AuditEntry :=
  match store.find? (fun r => r.id = tezId) with
  | none => (.error .NOT_FOUND, audit)
  | some t =>
    match assertTezAccess db userId
        ⟨t.teamId, t.conversationId, t.senderUserId⟩ with
    | .ok _ =>
      (.ok t, audit ++ [⟨t.teamId, userId, "tez.read", "tez", t.id⟩])
    | .error _ => (.error .FORBIDDEN, audit)

/-- The implementation predicate agrees with the specification predicate:
assertTezAccess admits exactly when mayAccess holds. -/
theorem assertTezAccess_ok_iff (db : AclDb) (userId : String) (t : TezScope) :
    assertTezAccess db userId t = .ok () ↔ mayAccess db userId t := by
  rcases t with ⟨tid?, cid?, sender⟩
  unfold assertTezAccess mayAccess
  by_cases hs : sender = userId
  · simp [hs]
  · cases tid? with
    | none =>
      cases cid? with
      | none => simp [hs]
      | some cid => cases hm : isConversationMember db userId cid <;> simp [hs, hm]
    | some tid =>
      cases hm : isTeamMember db userId tid with
      | true => simp [hs, hm]
      | false =>
        cases cid? with
        | none => simp [hs, hm]
        | some cid =>
          cases hm2 : isConversationMember db userId cid <;> simp [hs, hm, hm2]

/-- When access is denied, assertTezAccess raises FORBIDDEN. -/
theorem assertTezAccess_denied (db : AclDb) (userId : String) (t : TezScope)
    (h : ¬ mayAccess db userId t) :
    assertTezAccess db userId t = .error "FORBIDDEN" := by
  cases he : assertTezAccess db userId t with
  | ok v =>
    exact absurd ((assertTezAccess_ok_iff db userId t).mp (by cases v; exact he)) h
  | error e =>
    rcases t with ⟨tid?, cid?, sender⟩
    unfold assertTezAccess at he
    by_cases hs : sender = userId
    · simp [hs] at he
    · simp only [hs, if_false] at he
      split at he
      · cases he
      · split at he
        · cases he
        · cases he; rfl

/-- C1: for every user u and every stored Tez t, GET /tez/:id returns t
to u iff the access predicate admits u (sender, or member of the set
team scope, or member of the set conversation scope); otherwise it fails
with FORBIDDEN and returns no Tez data. -/
theorem getTez_returns_iff_mayAccess (db : AclDb) (store : List TezRow)
    (audit : List AuditEntry) (u i : String) (t : TezRow)
    (hfind : store.find? (fun r => r.id = i) = some t) :
    ((getTez db store audit u i).fst = .ok t ↔
       mayAccess db u ⟨t.teamId, t.conversationId, t.senderUserId⟩) ∧
    (¬ mayAccess db u ⟨t.teamId, t.conversationId, t.senderUserId⟩ →
       (getTez db store audit u i).fst = .error ApiError.FORBIDDEN) := by
  unfold getTez
  rw [hfind]
  dsimp only
  constructor
  · constructor
    · intro hok
      by_contra hno
      rw [assertTezAccess_denied db u _ hno] at hok
      cases hok
    · intro hma
      rw [(assertTezAccess_ok_iff db u _).mpr hma]
  · intro hno
    rw [assertTezAccess_denied db u _ hno]

/-- Witness for C1 at a concrete store: Bob may read a conversation Tez
in a conversation he belongs to, and an outsider is refused with
FORBIDDEN. -/
theorem getTez_returns_iff_mayAccess_witness :
    (List.find? (fun r => r.id = "t1")
        [({ id := "t1", teamId := none, conversationId := some "c1",
            senderUserId := "alice", surfaceText := "hi" } : TezRow)] =
      some { id := "t1", teamId := none, conversationId := some "c1",
             senderUserId := "alice", surfaceText := "hi" }) ∧
    ((getTez ⟨[], [("c1", "bob")]⟩
        [{ id := "t1", teamId := none, conversationId := some "c1",
           senderUserId := "alice", surfaceText := "hi" }] [] "bob" "t1").fst =
        .ok { id := "t1", teamId := none, conversationId := some "c1",
              senderUserId := "alice", surfaceText := "hi" } ↔
      mayAccess ⟨[], [("c1", "bob")]⟩ "bob" ⟨none, some "c1", "alice"⟩) := by
  refine ⟨by decide, ?_⟩
  exact (getTez_returns_iff_mayAccess ⟨[], [("c1", "bob")]⟩
    [{ id := "t1", teamId := none, conversationId := some "c1",
       senderUserId := "alice", surfaceText := "hi" }] [] "bob" "t1"
    { id := "t1", teamId := none, conversationId := some "c1",
      senderUserId := "alice", surfaceText := "hi" } (by decide)).1

/-- C9: when a Tez carries both a teamId and a conversationId,
assertTezAccess admits a non-sender actor iff the actor is a member of
the team or a member of the conversation; membership in either one
suffices. -/
theorem assertTezAccess_both_scopes (db : AclDb) (u : String) (t : TezScope)
    (tid cid : String) (hteam : t.teamId = some tid)
    (hconv : t.conversationId = some cid) :
    assertTezAccess db u t = .ok () ↔
      (t.senderUserId = u ∨ isTeamMember db u tid = true ∨
        isConversationMember db u cid = true) := by
  rw [assertTezAccess_ok_iff]
  unfold mayAccess
  rw [hteam, hconv]
  simp

/-- Witness for C9: a Tez scoped to both team tm1 and conversation c1 is
readable by carol, who is a member of the conversation only. -/
theorem assertTezAccess_both_scopes_witness :
    ((⟨some "tm1", some "c1", "alice"⟩ : TezScope).teamId = some "tm1") ∧
    (assertTezAccess ⟨[("tm1", "dave")], [("c1", "carol")]⟩ "carol"
        ⟨some "tm1", some "c1", "alice"⟩ = .ok () ↔
      (("alice" : String) = "carol" ∨
        isTeamMember ⟨[("tm1", "dave")], [("c1", "carol")]⟩ "carol" "tm1" = true ∨
        isConversationMember ⟨[("tm1", "dave")], [("c1", "carol")]⟩ "carol" "c1" = true)) := by
  refine ⟨rfl, ?_⟩
  exact assertTezAccess_both_scopes ⟨[("tm1", "dave")], [("c1", "carol")]⟩
    "carol" ⟨some "tm1", some "c1", "alice"⟩ "tm1" "c1" rfl rfl

/-- C5 counterexample: a sender reading their own Tez does produce a
tez.read audit entry. With a store holding one Tez sent by alice and an
empty journal, alice's successful GET /tez/:id appends a tez.read entry
whose actor is alice, contradicting the claim that sender self-reads are
not audited (audit.test.ts, records multiple reads for multiple
accesses, expects exactly this entry). -/
theorem getTez_self_read_is_audited :
    (getTez ⟨[], []⟩
        [{ id := "t1", teamId := none, conversationId := none,
           senderUserId := "alice", surfaceText := "mine" }] [] "alice" "t1").snd =
      [{ teamId := none, actorUserId := "alice", action := "tez.read",
         targetType := "tez", targetId := "t1" }] ∧
    (getTez ⟨[], []⟩
        [{ id := "t1", teamId := none, conversationId := none,
           senderUserId := "alice", surfaceText := "mine" }] [] "alice" "t1").snd ≠
      ([] : List AuditEntry) := by
  refine ⟨by decide, by decide⟩

/-- C5 amended: every successful GET /tez/:id appends exactly one
tez.read audit entry whose actor is the reading user — including when
the reader is the sender. -/
theorem getTez_read_audit (db : AclDb) (store : List TezRow)
    (audit : List AuditEntry) (u i : String) (t : TezRow)
    (hok : (getTez db store audit u i).fst = .ok t) :
    (getTez db store audit u i).snd =
      audit ++ [⟨t.teamId, u, "tez.read", "tez", t.id⟩] := by
  unfold getTez at hok ⊢
  cases hfind : store.find? (fun r => r.id = i) with
  | none => rw [hfind] at hok; cases hok
  | some t2 =>
    rw [hfind] at hok
    dsimp only at hok ⊢
    cases ha : assertTezAccess db u ⟨t2.teamId, t2.conversationId, t2.senderUserId⟩ with
    | ok v =>
      rw [ha] at hok
      dsimp only at hok ⊢
      injection hok with h2
      subst h2
      rfl
    | error e =>
      rw [ha] at hok
      cases hok

/-- Witness for C5 (amended) at the same concrete self-read input. -/
theorem getTez_read_audit_witness :
    ((getTez ⟨[], []⟩
        [{ id := "t1", teamId := none, conversationId := none,
           senderUserId := "alice", surfaceText := "mine" }] [] "alice" "t1").fst =
      .ok { id := "t1", teamId := none, conversationId := none,
            senderUserId := "alice", surfaceText := "mine" }) ∧
    (getTez ⟨[], []⟩
        [{ id := "t1", teamId := none, conversationId := none,
           senderUserId := "alice", surfaceText := "mine" }] [] "alice" "t1").snd =
      [] ++ [⟨none, "alice", "tez.read", "tez", "t1"⟩] := by
  refine ⟨by rfl, ?_⟩
  exact getTez_read_audit ⟨[], []⟩
    [{ id := "t1", teamId := none, conversationId := none,
       senderUserId := "alice", surfaceText := "mine" }] [] "alice" "t1"
    { id := "t1", teamId := none, conversationId := none,
      senderUserId := "alice", surfaceText := "mine" } (by rfl)

/-- A message row of a conversation as seen by the unread-count query:
its conversation, its author and its creation timestamp
(src/unnamed/part_000, tez table columns conversation_id,
sender_user_id, created_at). -/
structure ConvMsg where
  conversationId : String
  senderUserId : String
  createdAt : String
deriving DecidableEq, Repr

/-- A message is past the read cursor: a null lastReadAt leaves every
message unread, otherwise createdAt must be strictly later. -/
def isUnreadAfter (lastReadAt : Option String) (createdAt : String) : Bool :=
  match lastReadAt with
  | none => true
  | some r => decide (r < createdAt)

/-- Modelled from the spec: the unreadCount annotation computed by the
conversation listing, whose route file is absent from the snapshot. Per
federation.test.ts (includes unread count; returns unread counts for
conversations) the count includes messages authored by the actor
themselves: two messages, one of them the actor's own, count as 2 with a
null cursor. The actor argument is what the listing knows about the
caller; the count does not consult it. -/
def unreadCount : List ConvMsg → String → String → Option String → Nat
  | [], _, _, _ => 0
  | m :: rest, convId, actor, lastReadAt =>
    (if m.conversationId = convId && isUnreadAfter lastReadAt m.createdAt
      then 1 else 0) + unreadCount rest convId actor lastReadAt

/-- The unreadCount formula as the claim words it: messages of the
conversation with createdAt past the cursor and a sender different from
the actor. -/
def unreadCountClaim (msgs : List ConvMsg) (convId actor : String)
    (lastReadAt : Option String) : Nat :=
  (msgs.filter (fun m => m.conversationId = convId &&
    !(m.senderUserId = actor) && isUnreadAfter lastReadAt m.createdAt)).length

/-- C3 counterexample: the scenario of federation.test.ts, includes
unread count — alice and bob each sent one message in conversation c1
and alice has never read. The listing annotation is 2 (both messages),
the claim formula yields 1 (bob's message only). -/
theorem unreadCount_counts_own_messages :
    unreadCount
        [⟨"c1", "alice", "2026-01-01T00:00:00Z"⟩,
         ⟨"c1", "bob", "2026-01-01T00:00:01Z"⟩] "c1" "alice" none = 2 ∧
    unreadCountClaim
        [⟨"c1", "alice", "2026-01-01T00:00:00Z"⟩,
         ⟨"c1", "bob", "2026-01-01T00:00:01Z"⟩] "c1" "alice" none = 1 ∧
    unreadCount
        [⟨"c1", "alice", "2026-01-01T00:00:00Z"⟩,
         ⟨"c1", "bob", "2026-01-01T00:00:01Z"⟩] "c1" "alice" none ≠
      unreadCountClaim
        [⟨"c1", "alice", "2026-01-01T00:00:00Z"⟩,
         ⟨"c1", "bob", "2026-01-01T00:00:01Z"⟩] "c1" "alice" none := by
  refine ⟨by decide, by decide, by decide⟩

/-- C3 amended: the unreadCount annotation equals the number of messages
in the conversation with createdAt past the lastReadAt cursor,
regardless of who sent them; with a null cursor it is the total number
of messages in the conversation, the actor's own included. -/
theorem unreadCount_eq_filter_length (msgs : List ConvMsg)
    (convId actor : String) (lastReadAt : Option String) :
    unreadCount msgs convId actor lastReadAt =
      (msgs.filter (fun m => m.conversationId = convId &&
        isUnreadAfter lastReadAt m.createdAt)).length := by
  induction msgs with
  | nil => rfl
  | cons m rest ih =>
    unfold unreadCount
    rw [List.filter]
    cases h : (m.conversationId = convId && isUnreadAfter lastReadAt m.createdAt) with
    | true => simp [h, ih, Nat.add_comm]
    | false => simp [h, ih]

/-- Break a character list at the first occurrence of c, yielding the
parts before and after it; none when c does not occur. -/
def breakAt (c : Char) : List Char → Option (List Char × List Char)
  | [] => none
  | x :: xs =>
    if x = c then some ([], xs)
    else
      match breakAt c xs with
      | some (pre, post) => some (x :: pre, post)
      | none => none

/-- Split a recipient address at the "@" separator: a full address
"<id>@<host>" parses to (id, host); a bare id, or any string that does
not have exactly one "@", does not parse. -/
def splitAddress (addr : String) : Option (String × String) :=
  match breakAt (Char.ofNat 64) addr.toList with
  | some (pre, post) =>
    if post.contains (Char.ofNat 64) then none
    else some (String.mk pre, String.mk post)
  | none => none

/-- Grouping of recipients as returned by partitionRecipients: the local
list and the per-host remote map (a JS Map, i.e. an insertion-ordered
association list). -/
structure Partitioned where
  locals : List String
  remote : List (String × List String)
deriving DecidableEq, Repr

/-- Append an address under its host in the insertion-ordered remote
map, creating the host entry at the end when absent. -/
def addRemote : List (String × List String) → String → String →
    List (String × List String)
  | [], h, a => [(h, [a])]
  | (k, as) :: rest, h, a =>
    if k = h then (k, as ++ [a]) :: rest else (k, as) :: addRemote rest h a

/-- Look a host up in the remote map, yielding its address list (empty
when the host has no entry). -/
def remoteGet (m : List (String × List String)) (h : String) : List String :=
  match m.find? (fun e => e.1 = h) with
  | some e => e.2
  | none => []

/-- Modelled from the spec: partitionRecipients
(src/services/federationOutbound.ts, absent from the snapshot; spec
section 4.8). Each address whose parsed host equals ourHost, and each
bare id that does not parse, goes to the local list; each address with a
different parsed host is grouped under that host. Per federation.test.ts
(separates local and remote recipients) the string pushed to either
side is the address exactly as given — a local full address keeps its
"@<host>" suffix. -/
def partStep (ourHost : String) (acc : Partitioned) (addr : String) :
    Partitioned :=
  match splitAddress addr with
  | some (_, host) =>
    if host = ourHost then { acc with locals := acc.locals ++ [addr] }
    else { acc with remote := addRemote acc.remote host addr }
  | none => { acc with locals := acc.locals ++ [addr] }

def partitionRecipients (addresses : List String) (ourHost : String) :
    Partitioned :=
  addresses.foldl (partStep ourHost) ⟨[], []⟩

/-- C8 counterexample: on the inputs of federation.test.ts (separates
local and remote recipients), the local list holds the full addresses
"alice@beta.test" and "charlie@beta.test", not the bare ids "alice" and
"charlie" that the claim promises. -/
theorem partitionRecipients_keeps_full_local_addresses :
    (partitionRecipients
        ["alice@beta.test", "bob@alpha.test", "charlie@beta.test", "plain-user-id"]
        "beta.test").locals =
      ["alice@beta.test", "charlie@beta.test", "plain-user-id"] ∧
    (partitionRecipients
        ["alice@beta.test", "bob@alpha.test", "charlie@beta.test", "plain-user-id"]
        "beta.test").locals ≠ ["alice", "charlie", "plain-user-id"] ∧
    remoteGet (partitionRecipients
        ["alice@beta.test", "bob@alpha.test", "charlie@beta.test", "plain-user-id"]
        "beta.test").remote "alpha.test" = ["bob@alpha.test"] := by
  refine ⟨by decide, by decide, by decide⟩

theorem remoteGet_addRemote_same (m : List (String × List String))
    (h a : String) : remoteGet (addRemote m h a) h = remoteGet m h ++ [a] := by
  induction m with
  | nil => simp [addRemote, remoteGet, List.find?]
  | cons e rest ih =>
    rcases e with ⟨k, as⟩
    by_cases hk : k = h
    · subst hk
      simp [addRemote, remoteGet, List.find?]
    · simp only [addRemote, if_neg hk]
      unfold remoteGet
      rw [List.find?]
      rw [List.find?]
      have : (decide (k = h)) = false := by simp [hk]
      rw [this]
      exact ih

theorem remoteGet_addRemote_other (m : List (String × List String))
    (h h2 a : String) (hne : h2 ≠ h) :
    remoteGet (addRemote m h a) h2 = remoteGet m h2 := by
  induction m with
  | nil => simp [addRemote, remoteGet, List.find?, Ne.symm hne]
  | cons e rest ih =>
    rcases e with ⟨k, as⟩
    by_cases hk : k = h
    · subst hk
      have : (decide (k = h2)) = false := by simp [Ne.symm hne]
      simp [addRemote, remoteGet, List.find?, this]
    · simp only [addRemote, if_neg hk]
      unfold remoteGet
      rw [List.find?]
      rw [List.find?]
      cases hkh : (decide (k = h2)) with
      | true => rfl
      | false => exact ih

/-- Whether partitionRecipients classifies an address as local: it does
not parse as id-at-host, or its parsed host is ourHost. -/
def isLocalAddr (ourHost addr : String) : Bool :=
  match splitAddress addr with
  | some (_, host) => host = ourHost
  | none => true

/-- Whether an address is grouped under remote host h (with h distinct
from ourHost). -/
def isRemoteFor (h addr : String) : Bool :=
  match splitAddress addr with
  | some (_, host) => host = h
  | none => false

theorem partitionRecipients_go (addresses : List String) (ourHost : String)
    (acc : Partitioned) (h : String) (hne : h ≠ ourHost) :
    (addresses.foldl (partStep ourHost) acc).locals =
      acc.locals ++ addresses.filter (isLocalAddr ourHost) ∧
    remoteGet (addresses.foldl (partStep ourHost) acc).remote h =
      remoteGet acc.remote h ++ addresses.filter (isRemoteFor h) := by
  induction addresses generalizing acc with
  | nil => simp
  | cons addr rest ih =>
    rw [List.foldl_cons]
    cases hsp : splitAddress addr with
    | none =>
      have hl : isLocalAddr ourHost addr = true := by simp [isLocalAddr, hsp]
      have hr : isRemoteFor h addr = false := by simp [isRemoteFor, hsp]
      have hstep : partStep ourHost acc addr =
          { acc with locals := acc.locals ++ [addr] } := by
        simp [partStep, hsp]
      rw [hstep]
      rcases ih { acc with locals := acc.locals ++ [addr] } with ⟨ih1, ih2⟩
      constructor
      · rw [ih1]
        simp [List.filter, hl]
      · rw [ih2]
        simp [List.filter, hr]
    | some p =>
      rcases p with ⟨pid, phost⟩
      by_cases hh : phost = ourHost
      · subst hh
        have hl : isLocalAddr phost addr = true := by simp [isLocalAddr, hsp]
        have hr : isRemoteFor h addr = false := by
          simp only [isRemoteFor, hsp]
          simp only [decide_eq_false_iff_not]
          intro hc
          exact absurd hc.symm hne
        have hstep : partStep phost acc addr =
            { acc with locals := acc.locals ++ [addr] } := by
          simp [partStep, hsp]
        rw [hstep]
        rcases ih { acc with locals := acc.locals ++ [addr] } with ⟨ih1, ih2⟩
        constructor
        · rw [ih1]
          simp [List.filter, hl]
        · rw [ih2]
          simp [List.filter, hr]
      · have hl : isLocalAddr ourHost addr = false := by
          simp [isLocalAddr, hsp, hh]
        have hstep : partStep ourHost acc addr =
            { acc with remote := addRemote acc.remote phost addr } := by
          simp [partStep, hsp, hh]
        rw [hstep]
        rcases ih { acc with remote := addRemote acc.remote phost addr } with ⟨ih1, ih2⟩
        constructor
        · rw [ih1]
          simp [List.filter, hl]
        · rw [ih2]
          by_cases hph : phost = h
          · subst hph
            have hr : isRemoteFor phost addr = true := by simp [isRemoteFor, hsp]
            rw [remoteGet_addRemote_same]
            simp [List.filter, hr, List.append_assoc]
          · have hr : isRemoteFor h addr = false := by simp [isRemoteFor, hsp, hph]
            rw [remoteGet_addRemote_other acc.remote phost h addr (Ne.symm hph)]
            simp [List.filter, hr]

/-- C8 amended: for every address list and ourHost, partitionRecipients
puts exactly the addresses whose parsed host equals ourHost, and the
bare ids with no "@", into the local list — each kept verbatim as given,
not stripped to the bare id — in input order; and for every other host h
the remote map holds exactly the addresses parsed to host h, in input
order. -/
theorem partitionRecipients_spec (addresses : List String)
    (ourHost h : String) (hne : h ≠ ourHost) :
    (partitionRecipients addresses ourHost).locals =
      addresses.filter (isLocalAddr ourHost) ∧
    remoteGet (partitionRecipients addresses ourHost).remote h =
      addresses.filter (isRemoteFor h) := by
  have := partitionRecipients_go addresses ourHost ⟨[], []⟩ h hne
  rcases this with ⟨h1, h2⟩
  exact ⟨by rw [partitionRecipients, h1]; rfl,
         by rw [partitionRecipients, h2]; rfl⟩

/-- Witness for C8 (amended) on the test inputs of federation.test.ts. -/
theorem partitionRecipients_spec_witness :
    (("alpha.test" : String) ≠ "beta.test") ∧
    ((partitionRecipients
        ["alice@beta.test", "bob@alpha.test", "charlie@beta.test", "plain-user-id"]
        "beta.test").locals =
      List.filter (isLocalAddr "beta.test")
        ["alice@beta.test", "bob@alpha.test", "charlie@beta.test", "plain-user-id"] ∧
     remoteGet (partitionRecipients
        ["alice@beta.test", "bob@alpha.test", "charlie@beta.test", "plain-user-id"]
        "beta.test").remote "alpha.test" =
      List.filter (isRemoteFor "alpha.test")
        ["alice@beta.test", "bob@alpha.test", "charlie@beta.test", "plain-user-id"]) := by
  refine ⟨by decide, ?_⟩
  exact partitionRecipients_spec
    ["alice@beta.test", "bob@alpha.test", "charlie@beta.test", "plain-user-id"]
    "beta.test" "alpha.test" (by decide)

/-- A context layer as carried in a federation bundle
(federation.test.ts bundle payloads; spec section 4.3). -/
structure ContextItem where
  layer : String
  content : String
  mimeType : Option String
  confidence : Option Int
  source : Option String
deriving DecidableEq, Repr

/-- The Tez payload of a federation bundle (federation.test.ts bundle
payloads; spec section 4.3: the full Tez sans local state). -/
structure BundleTez where
  id : String
  threadId : Option String
  parentTezId : Option String
  surfaceText : String
  type : String
  urgency : String
  actionRequested : Option String
  visibility : String
  createdAt : String
deriving DecidableEq, Repr

/-- Modelled from the spec: the federation envelope
(src/services/federationBundle.ts is absent from the snapshot; spec
section 4.3 and federation.test.ts, create and validate bundle, pin the
field set, bundle_type "federation_delivery" and protocol_version
"1.2.4"). The JS field from is rendered fromAddr and to is toAddrs. -/
structure Bundle where
  protocol_version : String
  bundle_type : String
  sender_server : String
  tez : BundleTez
  context : List ContextItem
  fromAddr : String
  toAddrs : List String
  created_at : String
  bundle_hash : String
deriving DecidableEq, Repr

/-- The bundle as hashed: every field but the hash itself (spec 4.3,
bundle_hash = hash of the bundle without its hash field, here rendered
by blanking that field). -/
def bundleCore (b : Bundle) : Bundle := { b with bundle_hash := "" }

/-- Modelled from the spec: validateBundle
(src/services/federationBundle.ts is absent from the snapshot).
Structural checks run in order, then the hash is recomputed — through
the hash function h the model is parameterized by — and compared to the
stamped bundle_hash; the first failing check names the error, a hash
difference yielding the message "hash mismatch" that
federation.test.ts (tampered bundle fails validation) expects. Returns
none when the bundle is valid. -/
def validateBundle (h : Bundle → String) (b : Bundle) : Option String :=
  if b.bundle_type ≠ "federation_delivery" then some "Invalid bundle_type"
  else if b.sender_server = "" then some "Missing sender_server"
  else if b.protocol_version ≠ "1.2.4" then some "Unsupported protocol_version"
  else if h (bundleCore b) ≠ b.bundle_hash then some "hash mismatch"
  else none

/-- Trust states of a peer (src/unnamed/part_000 has no peers table in
this snapshot; spec section 4.4). -/
inductive TrustLevel where
  | pending
  | trusted
  | blocked
deriving DecidableEq, Repr

/-- The relay store as touched by inbound federation: tez rows, context
rows keyed by tezId, recipient rows and the audit journal. -/
structure FedStore where
  tezRows : List TezRow
  contextRows : List (String × ContextItem)
  recipients : List (String × String)
  auditLog : List AuditEntry
deriving DecidableEq, Repr

/-- Response of POST /federation/inbox. -/
structure InboxResponse where
  status : Nat
  errorCode : Option String
  errorMessage : Option String
  localTezIds : List String
  notFound : List String
deriving DecidableEq, Repr

/-- Modelled from the spec: the POST /federation/inbox admission pipeline
(spec section 4.8, steps 2-7; the route file is absent from the
snapshot; HTTP signature verification, step 1, happens before this
function runs). Trust is consulted first, the bundle is validated, the
to addresses are resolved against the local contact ids, and only then
are the Tez, its context and its recipients persisted in one
transaction, with a tez.received audit entry; any earlier failure
returns with the store untouched. -/
def federationInbox (h : Bundle → String) (ourHost : String)
    (contacts : List String) (trust : TrustLevel) (s : FedStore)
    (b : Bundle) : InboxResponse × FedStore :=
  match trust with
  | .pending => (⟨403, some "SERVER_NOT_TRUSTED", some "Server not trusted", [], []⟩, s)
  | .blocked => (⟨403, some "SERVER_BLOCKED", some "Server is blocked", [], []⟩, s)
  | .trusted =>
    match validateBundle h b with
    | some msg => (⟨422, some "INVALID_BUNDLE", some msg, [], []⟩, s)
    | none =>
      let resolved := b.toAddrs.filterMap (fun a =>
        match splitAddress a with
        | some (uid, host) => if host = ourHost then some (uid, a) else none
        | none => none)
      let found := resolved.filter (fun p => contacts.contains p.1)
      let missing := (resolved.filter (fun p => !contacts.contains p.1)).map (fun p => p.2)
      let s2 : FedStore :=
        { tezRows := s.tezRows ++
            [⟨b.tez.id, none, none, b.fromAddr, b.tez.surfaceText⟩],
          contextRows := s.contextRows ++ b.context.map (fun c => (b.tez.id, c)),
          recipients := s.recipients ++ found.map (fun p => (b.tez.id, p.1)),
          auditLog := s.auditLog ++ [⟨none, b.fromAddr, "tez.received", "tez", b.tez.id⟩] }
      (⟨if missing.isEmpty then 200 else 207, none, none,
        found.map (fun _ => b.tez.id), missing⟩, s2)

/-- C2: an inbound bundle whose recomputed hash differs from its stamped
bundle_hash is rejected by /federation/inbox with HTTP 422, error code
INVALID_BUNDLE and the message "hash mismatch", and the store — in
particular its tez rows and its context rows — is exactly the store
before the request. The structural hypotheses pin the earlier checks of
validateBundle so that the hash comparison is the one that fires. -/
theorem inbox_hash_mismatch_rejects_unchanged (h : Bundle → String)
    (ourHost : String) (contacts : List String) (s : FedStore) (b : Bundle)
    (h1 : b.bundle_type = "federation_delivery")
    (h2 : b.sender_server ≠ "")
    (h3 : b.protocol_version = "1.2.4")
    (h4 : h (bundleCore b) ≠ b.bundle_hash) :
    federationInbox h ourHost contacts .trusted s b =
      (⟨422, some "INVALID_BUNDLE", some "hash mismatch", [], []⟩, s) := by
  unfold federationInbox validateBundle
  simp [h1, h2, h3, h4]

/-- Witness for C2: a concrete tampered bundle (stamped hash "stale"
while the recomputed hash is "fresh") is refused with 422 and the
concrete store is untouched. -/
theorem inbox_hash_mismatch_witness :
    (({ protocol_version := "1.2.4", bundle_type := "federation_delivery",
        sender_server := "alpha.test",
        tez := { id := "tz1", threadId := none, parentTezId := none,
                 surfaceText := "Tampered text!", type := "note",
                 urgency := "normal", actionRequested := none,
                 visibility := "dm", createdAt := "2026-01-01T00:00:00Z" },
        context := [], fromAddr := "alice@alpha.test",
        toAddrs := ["bob@beta.test"], created_at := "2026-01-01T00:00:00Z",
        bundle_hash := "stale" } : Bundle).bundle_type = "federation_delivery") ∧
    federationInbox (fun _ => "fresh") "beta.test" ["bob"] .trusted
        ⟨[], [], [], []⟩
        { protocol_version := "1.2.4", bundle_type := "federation_delivery",
          sender_server := "alpha.test",
          tez := { id := "tz1", threadId := none, parentTezId := none,
                   surfaceText := "Tampered text!", type := "note",
                   urgency := "normal", actionRequested := none,
                   visibility := "dm", createdAt := "2026-01-01T00:00:00Z" },
          context := [], fromAddr := "alice@alpha.test",
          toAddrs := ["bob@beta.test"], created_at := "2026-01-01T00:00:00Z",
          bundle_hash := "stale" } =
      (⟨422, some "INVALID_BUNDLE", some "hash mismatch", [], []⟩,
       (⟨[], [], [], []⟩ : FedStore)) := by
  refine ⟨rfl, ?_⟩
  exact inbox_hash_mismatch_rejects_unchanged (fun _ => "fresh") "beta.test"
    ["bob"] ⟨[], [], [], []⟩ _ rfl (by decide) rfl (by decide)

/-- A contact row (src/unnamed/part_000, contacts table). -/
structure Contact where
  id : String
  displayName : String
  email : Option String
  avatarUrl : Option String
  tezAddress : String
  status : String
  lastSeenAt : Option String
  registeredAt : String
  updatedAt : String
deriving DecidableEq, Repr

/-- Validated body of POST /contacts/register (src/unnamed/part_002,
RegisterSchema). -/
structure RegisterBody where
  displayName : String
  email : Option String
  avatarUrl : Option String
deriving DecidableEq, Repr

/-- Store touched by the contact routes: the contacts table and the
audit journal. -/
structure ContactsStore where
  contacts : List Contact
  auditLog : List AuditEntry
deriving DecidableEq, Repr

/-- recordAudit (src/src/services/audit.ts lines 22-40) composed with
the NOT NULL constraint on audit_log.team_id (src/src/db/schema.ts
lines 133-154 and src/unnamed/part_000 lines 190-211): the writer
inserts one row carrying the caller's teamId, and an insert without a
teamId violates the NOT NULL constraint, so it fails instead of
persisting. The TypeScript signature requires teamId and draws action
from a closed enum with no contact entries; the contact routes call it
without teamId all the same, which the Option argument represents. -/
def recordAudit (log : List AuditEntry) (teamId : Option String)
    (actorUserId action targetType targetId : String) :
    Except String (List AuditEntry) :=
  if teamId.isSome then
    .ok (log ++ [⟨teamId, actorUserId, action, targetType, targetId⟩])
  else .error "NOT NULL constraint failed: audit_log.team_id"

/-- POST /contacts/register (src/unnamed/part_002 lines 30-109): select
the contact by userId; when present, update displayName, email,
avatarUrl, tezAddress and updatedAt on the matching row; when absent,
insert a fresh active row; then await recordAudit with action
contact.updated or contact.registered, targetType contact and targetId
the userId — and no teamId. An exception from the awaited recordAudit is
caught by the handler's catch and surfaces as 500 INTERNAL_ERROR; the
contact write, already executed and not transactional with the audit
write, stays. Returns the HTTP status with the new store. -/
def registerContact (s : ContactsStore) (userId : String)
    (body : RegisterBody) (now relayHost : String) : Nat × ContactsStore :=
  let tezAddress := userId ++ "@" ++ relayHost
  match s.contacts.find? (fun c => c.id = userId) with
  | some _ =>
    let contacts2 := s.contacts.map (fun c =>
      if c.id = userId then
        { c with displayName := body.displayName, email := body.email,
                 avatarUrl := body.avatarUrl, tezAddress := tezAddress,
                 updatedAt := now }
      else c)
    match recordAudit s.auditLog none userId "contact.updated" "contact" userId with
    | .ok log2 => (201, ⟨contacts2, log2⟩)
    | .error _ => (500, ⟨contacts2, s.auditLog⟩)
  | none =>
    let contacts2 := s.contacts ++
      [⟨userId, body.displayName, body.email, body.avatarUrl, tezAddress,
        "active", none, now, now⟩]
    match recordAudit s.auditLog none userId "contact.registered" "contact" userId with
    | .ok log2 => (201, ⟨contacts2, log2⟩)
    | .error _ => (500, ⟨contacts2, s.auditLog⟩)

/-- C4: evaluation of the composed source at the failing input. A first
registration by user u1 with displayName Alice on an empty store calls
recordAudit without a teamId; the audit insert violates the NOT NULL
constraint on audit_log.team_id, so the route answers 500 — where
contacts.test.ts expects 201 — and no contact.registered entry is
persisted, so no successful completion of contact registration ever
carries the matching AuditEntry the claim requires. -/
theorem contact_register_audit_is_lost :
    (registerContact ⟨[], []⟩ "u1" ⟨"Alice", none, none⟩
        "2026-01-02T00:00:00Z" "localhost").fst = 500 ∧
    (registerContact ⟨[], []⟩ "u1" ⟨"Alice", none, none⟩
        "2026-01-02T00:00:00Z" "localhost").snd.auditLog = [] ∧
    recordAudit [] none "u1" "contact.registered" "contact" "u1" =
      .error "NOT NULL constraint failed: audit_log.team_id" := by
  refine ⟨rfl, rfl, rfl⟩

/-- C10: re-registration is a pure profile update. When a contact row
for the caller exists, POST /contacts/register leaves the table the
same size (no second row), rewrites only displayName, email, avatarUrl,
tezAddress and updatedAt on the caller's row, keeps the row's id,
status, lastSeenAt and registeredAt, and leaves every other row
untouched. -/
theorem contact_reregister_frame (s : ContactsStore) (userId : String)
    (body : RegisterBody) (now relayHost : String) (r : Contact)
    (hfind : s.contacts.find? (fun c => c.id = userId) = some r) :
    ((registerContact s userId body now relayHost).snd.contacts.length =
      s.contacts.length) ∧
    (∀ c ∈ s.contacts, c.id ≠ userId →
      c ∈ (registerContact s userId body now relayHost).snd.contacts) ∧
    (∀ c2 ∈ (registerContact s userId body now relayHost).snd.contacts,
      c2.id = userId →
      ∃ c ∈ s.contacts, c.id = userId ∧
        c2.id = c.id ∧ c2.status = c.status ∧
        c2.lastSeenAt = c.lastSeenAt ∧ c2.registeredAt = c.registeredAt ∧
        c2.displayName = body.displayName ∧ c2.email = body.email ∧
        c2.avatarUrl = body.avatarUrl ∧
        c2.tezAddress = userId ++ "@" ++ relayHost ∧ c2.updatedAt = now) := by
  unfold registerContact
  rw [hfind]
  simp only [recordAudit, Option.isSome_none, Bool.false_eq_true, if_false]
  refine ⟨by simp, ?_, ?_⟩
  · intro c hc hne
    have : (fun c =>
        if c.id = userId then
          { c with displayName := body.displayName, email := body.email,
                   avatarUrl := body.avatarUrl,
                   tezAddress := userId ++ "@" ++ relayHost,
                   updatedAt := now }
        else c) c = c := by
      simp [hne]
    rw [← this]
    exact List.mem_map_of_mem _ hc
  · intro c2 hc2 hid
    rcases List.mem_map.mp hc2 with ⟨c, hc, hfc⟩
    by_cases hcid : c.id = userId
    · refine ⟨c, hc, hcid, ?_⟩
      rw [if_pos hcid] at hfc
      subst hfc
      simp [hcid]
    · rw [if_neg hcid] at hfc
      subst hfc
      exact absurd hid hcid

/-- Witness for C10: re-registering u1 (existing row with displayName
Alice, status active, registeredAt t0) under displayName Bobby keeps
one row with the old status, lastSeenAt and registeredAt and the new
profile fields. -/
theorem contact_reregister_frame_witness :
    (List.find? (fun c => c.id = "u1")
        [({ id := "u1", displayName := "Alice", email := none,
            avatarUrl := none, tezAddress := "u1@localhost",
            status := "active", lastSeenAt := none,
            registeredAt := "2026-01-01T00:00:00Z",
            updatedAt := "2026-01-01T00:00:00Z" } : Contact)] =
      some { id := "u1", displayName := "Alice", email := none,
             avatarUrl := none, tezAddress := "u1@localhost",
             status := "active", lastSeenAt := none,
             registeredAt := "2026-01-01T00:00:00Z",
             updatedAt := "2026-01-01T00:00:00Z" }) ∧
    ((registerContact
        ⟨[{ id := "u1", displayName := "Alice", email := none,
            avatarUrl := none, tezAddress := "u1@localhost",
            status := "active", lastSeenAt := none,
            registeredAt := "2026-01-01T00:00:00Z",
            updatedAt := "2026-01-01T00:00:00Z" }], []⟩ "u1"
        ⟨"Bobby", some "b@x.io", none⟩ "2026-02-02T00:00:00Z"
        "localhost").snd.contacts.length = 1) := by
  refine ⟨rfl, ?_⟩
  exact (contact_reregister_frame
    ⟨[{ id := "u1", displayName := "Alice", email := none,
        avatarUrl := none, tezAddress := "u1@localhost",
        status := "active", lastSeenAt := none,
        registeredAt := "2026-01-01T00:00:00Z",
        updatedAt := "2026-01-01T00:00:00Z" }], []⟩ "u1"
    ⟨"Bobby", some "b@x.io", none⟩ "2026-02-02T00:00:00Z" "localhost"
    { id := "u1", displayName := "Alice", email := none,
      avatarUrl := none, tezAddress := "u1@localhost",
      status := "active", lastSeenAt := none,
      registeredAt := "2026-01-01T00:00:00Z",
      updatedAt := "2026-01-01T00:00:00Z" } rfl).1

/-- A Tez row as the threading invariant sees it: its id, its thread and
its direct parent. threadId is total here because share and reply always
stamp it (tez.test.ts, creates a Tez with minimal fields, pins
threadId = id on roots). -/
structure TRow where
  id : String
  threadId : String
  parentTezId : Option String
deriving DecidableEq, Repr

/-- Store and id counter for the messaging operations. -/
structure ThreadState where
  rows : List TRow
  counter : Nat
deriving DecidableEq, Repr

/-- Fresh Tez id from the running counter (the source uses UUIDs; only
the freshness plays a role here and none of the proofs depend on it). -/
def freshTezId (n : Nat) : String := "tez-" ++ toString n

/-- The messaging operations that create Tez rows. -/
inductive TOp where
  | share
  | reply (parentId : String)
deriving DecidableEq, Repr

/-- Modelled from the spec: share and reply (spec section 4.6; the tez
route file is absent from the snapshot). share inserts a root whose
threadId is its own id; reply resolves the parent (no insert when it is
missing, the route answers 404) and inserts a row with parentTezId the
parent's id and threadId inherited from the parent. -/
def applyTOp (s : ThreadState) : TOp → ThreadState
  | .share =>
    ⟨s.rows ++ [⟨freshTezId s.counter, freshTezId s.counter, none⟩],
     s.counter + 1⟩
  | .reply pid =>
    match s.rows.find? (fun r => r.id = pid) with
    | none => s
    | some p =>
      ⟨s.rows ++ [⟨freshTezId s.counter, p.threadId, some pid⟩],
       s.counter + 1⟩

/-- Run a sequence of share and reply operations from the empty store. -/
def runTOps (ops : List TOp) : ThreadState := ops.foldl applyTOp ⟨[], 0⟩

/-- The threading invariant of spec section 3: a root carries its own id
as threadId; a reply carries its parent's threadId; and every row's
threadId is the id of a root whose threadId is itself. -/
def threadInv (s : ThreadState) : Prop :=
  ∀ t ∈ s.rows,
    (t.parentTezId = none → t.threadId = t.id) ∧
    (∀ pid, t.parentTezId = some pid →
      ∃ p ∈ s.rows, p.id = pid ∧ t.threadId = p.threadId) ∧
    (∃ r ∈ s.rows, r.id = t.threadId ∧ r.parentTezId = none ∧
      r.threadId = r.id)

theorem applyTOp_preserves (s : ThreadState) (op : TOp)
    (h : threadInv s) : threadInv (applyTOp s op) := by
  cases op with
  | share =>
    intro t ht
    simp only [applyTOp, List.mem_append, List.mem_singleton] at ht
    rcases ht with ht | ht
    · rcases h t ht with ⟨h1, h2, h3⟩
      refine ⟨h1, ?_, ?_⟩
      · intro pid hp
        rcases h2 pid hp with ⟨p, hpmem, hpid, hth⟩
        exact ⟨p, by simp [applyTOp, List.mem_append, hpmem], hpid, hth⟩
      · rcases h3 with ⟨r, hrmem, hr⟩
        exact ⟨r, by simp [applyTOp, List.mem_append, hrmem], hr⟩
    · subst ht
      refine ⟨fun _ => rfl, ?_, ?_⟩
      · intro pid hp
        cases hp
      · exact ⟨⟨freshTezId s.counter, freshTezId s.counter, none⟩,
          by simp [applyTOp, List.mem_append], rfl, rfl, rfl⟩
  | reply pid0 =>
    cases hfind : s.rows.find? (fun r => r.id = pid0) with
    | none =>
      intro t ht
      simp only [applyTOp, hfind] at ht
      rcases h t ht with ⟨h1, h2, h3⟩
      refine ⟨h1, ?_, ?_⟩
      · intro pid hp
        rcases h2 pid hp with ⟨p, hpmem, hpid, hth⟩
        exact ⟨p, by simp [applyTOp, hfind, hpmem], hpid, hth⟩
      · rcases h3 with ⟨r, hrmem, hr⟩
        exact ⟨r, by simp [applyTOp, hfind, hrmem], hr⟩
    | some p =>
      have hpmem : p ∈ s.rows := List.mem_of_find?_eq_some hfind
      have hpid : p.id = pid0 := by
        have := List.find?_some hfind
        exact of_decide_eq_true this
      intro t ht
      simp only [applyTOp, hfind, List.mem_append, List.mem_singleton] at ht
      rcases ht with ht | ht
      · rcases h t ht with ⟨h1, h2, h3⟩
        refine ⟨h1, ?_, ?_⟩
        · intro pid hp
          rcases h2 pid hp with ⟨q, hqmem, hqid, hth⟩
          exact ⟨q, by simp [applyTOp, hfind, List.mem_append, hqmem], hqid, hth⟩
        · rcases h3 with ⟨r, hrmem, hr⟩
          exact ⟨r, by simp [applyTOp, hfind, List.mem_append, hrmem], hr⟩
      · subst ht
        refine ⟨?_, ?_, ?_⟩
        · intro hc
          cases hc
        · intro pid hp
          have : pid = pid0 := by
            injection hp with h2
            exact h2.symm
          subst this
          exact ⟨p, by simp [applyTOp, hfind, List.mem_append, hpmem], hpid, rfl⟩
        · rcases h p hpmem with ⟨_, _, hroot⟩
          rcases hroot with ⟨r, hrmem, hr1, hr2, hr3⟩
          exact ⟨r, by simp [applyTOp, hfind, List.mem_append, hrmem],
            hr1, hr2, hr3⟩

theorem runTOps_inv (ops : List TOp) : threadInv (runTOps ops) := by
  unfold runTOps
  have base : threadInv (⟨[], 0⟩ : ThreadState) := by
    intro t ht
    cases ht
  generalize (⟨[], 0⟩ : ThreadState) = s0 at base ⊢
  induction ops generalizing s0 with
  | nil => exact base
  | cons op rest ih =>
    rw [List.foldl_cons]
    exact ih _ (applyTOp_preserves s0 op base)

/-- C6: after any sequence of share and reply operations, every created
Tez satisfies the threading invariant — a root (no parentTezId) has
threadId equal to its own id; a reply has threadId equal to its
parent's threadId; and transitively every row's threadId is the id of
the thread's root, a parentless Tez whose threadId is its own id. -/
theorem thread_id_inheritance (ops : List TOp) (t : TRow)
    (ht : t ∈ (runTOps ops).rows) :
    (t.parentTezId = none → t.threadId = t.id) ∧
    (∀ pid, t.parentTezId = some pid →
      ∃ p ∈ (runTOps ops).rows, p.id = pid ∧ t.threadId = p.threadId) ∧
    (∃ r ∈ (runTOps ops).rows, r.id = t.threadId ∧ r.parentTezId = none ∧
      r.threadId = r.id) :=
  runTOps_inv ops t ht

/-- Witness for C6: root, reply, and reply-to-reply — the nested reply
tez-2 carries threadId tez-0, its parent tez-1, and the root tez-0 has
threadId tez-0 (the scenario of tez.test.ts, reply inherits the thread
from a nested reply). -/
theorem thread_id_inheritance_witness :
    ((⟨"tez-2", "tez-0", some "tez-1"⟩ : TRow) ∈
      (runTOps [.share, .reply "tez-0", .reply "tez-1"]).rows) ∧
    (∃ r ∈ (runTOps [.share, .reply "tez-0", .reply "tez-1"]).rows,
      r.id = (⟨"tez-2", "tez-0", some "tez-1"⟩ : TRow).threadId ∧
      r.parentTezId = none ∧ r.threadId = r.id) := by
  refine ⟨by decide, ?_⟩
  exact (thread_id_inheritance [.share, .reply "tez-0", .reply "tez-1"]
    ⟨"tez-2", "tez-0", some "tez-1"⟩ (by decide)).2.2

/-- Structural lexicographic comparison on character lists, used to sort
the unordered DM member pair. -/
def strLeAux : List Char → List Char → Bool
  | [], _ => true
  | _ :: _, [] => false
  | a :: as, b :: bs =>
    if a = b then strLeAux as bs
    else decide (a < b)

/-- Lexicographic comparison of strings. -/
def strLe (a b : String) : Bool := strLeAux a.toList b.toList

theorem strLeAux_total (as bs : List Char) :
    strLeAux as bs = true ∨ strLeAux bs as = true := by
  induction as generalizing bs with
  | nil => exact Or.inl rfl
  | cons a as ih =>
    cases bs with
    | nil => exact Or.inr rfl
    | cons b bs =>
      by_cases hab : a = b
      · subst hab
        rcases ih bs with h | h
        · exact Or.inl (by simp [strLeAux, h])
        · exact Or.inr (by simp [strLeAux, h])
      · rcases lt_trichotomy a b with h | h | h
        · exact Or.inl (by simp [strLeAux, hab, h])
        · exact absurd h hab
        · exact Or.inr (by simp [strLeAux, Ne.symm hab, h])

theorem strLeAux_antisymm (as bs : List Char)
    (h1 : strLeAux as bs = true) (h2 : strLeAux bs as = true) : as = bs := by
  induction as generalizing bs with
  | nil =>
    cases bs with
    | nil => rfl
    | cons b bs => simp [strLeAux] at h2
  | cons a as ih =>
    cases bs with
    | nil => simp [strLeAux] at h1
    | cons b bs =>
      by_cases hab : a = b
      · subst hab
        simp only [strLeAux, if_pos rfl] at h1 h2
        rw [ih bs h1 h2]
      · simp only [strLeAux, if_neg hab, decide_eq_true_eq] at h1
        simp only [strLeAux, if_neg (Ne.symm hab), decide_eq_true_eq] at h2
        exact absurd h2 (lt_asymm h1)

theorem strLe_antisymm (a b : String) (h1 : strLe a b = true)
    (h2 : strLe b a = true) : a = b := by
  cases a with
  | mk la =>
    cases b with
    | mk lb =>
      unfold strLe at h1 h2
      have : la = lb := strLeAux_antisymm la lb h1 h2
      rw [this]

theorem strLe_total (a b : String) : strLe a b = true ∨ strLe b a = true :=
  strLeAux_total a.toList b.toList

/-- The sorted rendering of an unordered user pair (spec section 4.7:
sort the unordered pair and consult an index). -/
def normPair (a b : String) : String × String :=
  if strLe a b then (a, b) else (b, a)

theorem normPair_comm (a b : String) : normPair a b = normPair b a := by
  unfold normPair
  by_cases h1 : strLe a b = true
  · by_cases h2 : strLe b a = true
    · rw [strLe_antisymm a b h1 h2]
    · simp [h1, h2]
  · by_cases h2 : strLe b a = true
    · simp [h1, h2]
    · rcases strLe_total a b with h | h
      · exact absurd h h1
      · exact absurd h h2

/-- A conversation row (src/unnamed/part_000, conversations table, with
its members from conversation_members). -/
structure Conv where
  id : String
  ctype : String
  members : List String
deriving DecidableEq, Repr

/-- The key under which a DM is deduplicated: its sorted member pair,
defined only for conversations of type dm with exactly two members. -/
def dmKey (c : Conv) : Option (String × String) :=
  if c.ctype = "dm" then
    match c.members with
    | [a, b] => some (normPair a b)
    | _ => none
  else none

/-- Conversation store and id counter. -/
structure ConvState where
  convs : List Conv
  counter : Nat
deriving DecidableEq, Repr

/-- Modelled from the spec: DM creation (spec section 4.7; the
conversations route file is absent from the snapshot). Sort the
unordered pair, look an existing DM over that pair up; when found
return its id with the store unchanged (federation.test.ts, returns
existing DM when created from the other side), otherwise insert the
conversation with both members. -/
def createDM (s : ConvState) (actor other : String) : String × ConvState :=
  match s.convs.find? (fun c => dmKey c = some (normPair actor other)) with
  | some c => (c.id, s)
  | none =>
    ("conv-" ++ toString s.counter,
     ⟨s.convs ++ [⟨"conv-" ++ toString s.counter, "dm", [actor, other]⟩],
      s.counter + 1⟩)

theorem createDM_found (s : ConvState) (a b : String) (c : Conv)
    (hfind : s.convs.find? (fun c => dmKey c = some (normPair a b)) = some c) :
    createDM s a b = (c.id, s) := by
  unfold createDM
  rw [hfind]

theorem createDM_new (s : ConvState) (a b : String)
    (hfind : s.convs.find? (fun c => dmKey c = some (normPair a b)) = none) :
    createDM s a b =
      ("conv-" ++ toString s.counter,
       ⟨s.convs ++ [⟨"conv-" ++ toString s.counter, "dm", [a, b]⟩],
        s.counter + 1⟩) := by
  unfold createDM
  rw [hfind]

/-- The conversation-creating operations. -/
inductive COp where
  | dm (actor other : String)
  | group (creator : String) (memberIds : List String)
deriving DecidableEq, Repr

/-- Modelled from the spec: apply one creation (group creation
auto-includes the creator, spec section 4.7). -/
def applyCOp (s : ConvState) : COp → ConvState
  | .dm a b => (createDM s a b).snd
  | .group creator ms =>
    ⟨s.convs ++ [⟨"conv-" ++ toString s.counter, "group", creator :: ms⟩],
     s.counter + 1⟩

/-- Run a sequence of conversation creations from the empty store. -/
def runCOps (ops : List COp) : ConvState := ops.foldl applyCOp ⟨[], 0⟩

/-- At most one DM conversation per sorted member pair. -/
def dmUnique (s : ConvState) : Prop :=
  ∀ c1 ∈ s.convs, ∀ c2 ∈ s.convs, ∀ k,
    dmKey c1 = some k → dmKey c2 = some k → c1 = c2

theorem applyCOp_preserves (s : ConvState) (op : COp)
    (h : dmUnique s) : dmUnique (applyCOp s op) := by
  cases op with
  | group creator ms =>
    intro c1 hc1 c2 hc2 k hk1 hk2
    simp only [applyCOp, List.mem_append, List.mem_singleton] at hc1 hc2
    rcases hc1 with hc1 | hc1
    · rcases hc2 with hc2 | hc2
      · exact h c1 hc1 c2 hc2 k hk1 hk2
      · subst hc2
        simp [dmKey] at hk2
    · subst hc1
      simp [dmKey] at hk1
  | dm a b =>
    show dmUnique (createDM s a b).snd
    cases hfind : s.convs.find? (fun c => dmKey c = some (normPair a b)) with
    | some c =>
      rw [createDM_found s a b c hfind]
      exact h
    | none =>
      rw [createDM_new s a b hfind]
      have hnone : ∀ c ∈ s.convs, ¬ (dmKey c = some (normPair a b)) := by
        intro c hc hk
        have := List.find?_eq_none.mp hfind c hc
        simp [hk] at this
      intro c1 hc1 c2 hc2 k hk1 hk2
      simp only [List.mem_append, List.mem_singleton] at hc1 hc2
      rcases hc1 with hc1 | hc1
      · rcases hc2 with hc2 | hc2
        · exact h c1 hc1 c2 hc2 k hk1 hk2
        · subst hc2
          simp only [dmKey, if_pos rfl] at hk2
          injection hk2 with hk2
          subst hk2
          exact absurd hk1 (hnone c1 hc1)
      · subst hc1
        rcases hc2 with hc2 | hc2
        · simp only [dmKey, if_pos rfl] at hk1
          injection hk1 with hk1
          subst hk1
          exact absurd hk2 (hnone c2 hc2)
        · subst hc2
          rfl

theorem runCOps_unique (ops : List COp) : dmUnique (runCOps ops) := by
  unfold runCOps
  have base : dmUnique (⟨[], 0⟩ : ConvState) := by
    intro c1 hc1
    cases hc1
  generalize (⟨[], 0⟩ : ConvState) = s0 at base ⊢
  induction ops generalizing s0 with
  | nil => exact base
  | cons op rest ih =>
    rw [List.foldl_cons]
    exact ih _ (applyCOp_preserves s0 op base)

theorem createDM_finds_existing (s : ConvState) (a b : String) (c1 : Conv)
    (hu : dmUnique s) (hc1 : c1 ∈ s.convs)
    (hkey : dmKey c1 = some (normPair a b)) :
    (createDM s a b).fst = c1.id := by
  cases hfind : s.convs.find? (fun c => dmKey c = some (normPair a b)) with
  | none =>
    have := List.find?_eq_none.mp hfind c1 hc1
    simp [hkey] at this
  | some c =>
    have hcmem : c ∈ s.convs := List.mem_of_find?_eq_some hfind
    have hck : dmKey c = some (normPair a b) := by
      have := List.find?_some hfind
      exact of_decide_eq_true this
    have hcc : c = c1 := hu c hcmem c1 hc1 (normPair a b) hck hkey
    rw [createDM_found s a b c hfind, hcc]

/-- C7: after any sequence of conversation creations, a DM over the
unordered pair of a and b is unique — any two stored conversations of
type dm with that sorted member pair are the same row — and when such a
DM exists, creating it again from either side returns the existing
conversation's id: Create-DM(a, b) and Create-DM(b, a) both answer with
the stored id. -/
theorem dm_pair_unique_and_sym (ops : List COp) (a b : String) (c1 : Conv)
    (hc1 : c1 ∈ (runCOps ops).convs)
    (hkey : dmKey c1 = some (normPair a b)) :
    (∀ c2 ∈ (runCOps ops).convs,
      dmKey c2 = some (normPair a b) → c2 = c1) ∧
    (createDM (runCOps ops) a b).fst = c1.id ∧
    (createDM (runCOps ops) b a).fst = c1.id := by
  have hu := runCOps_unique ops
  refine ⟨?_, ?_, ?_⟩
  · intro c2 hc2 hk2
    exact hu c2 hc2 c1 hc1 (normPair a b) hk2 hkey
  · exact createDM_finds_existing (runCOps ops) a b c1 hu hc1 hkey
  · exact createDM_finds_existing (runCOps ops) b a c1 hu hc1
      (by rw [normPair_comm b a]; exact hkey)

/-- Witness for C7: after alice creates the DM with bob, the stored row
conv-0 is the unique DM over the pair and both Create-DM(alice, bob)
and Create-DM(bob, alice) return conv-0. -/
theorem dm_pair_unique_and_sym_witness :
    ((⟨"conv-0", "dm", ["alice", "bob"]⟩ : Conv) ∈
      (runCOps [.dm "alice" "bob"]).convs) ∧
    (dmKey ⟨"conv-0", "dm", ["alice", "bob"]⟩ =
      some (normPair "alice" "bob")) ∧
    ((createDM (runCOps [.dm "alice" "bob"]) "alice" "bob").fst = "conv-0" ∧
     (createDM (runCOps [.dm "alice" "bob"]) "bob" "alice").fst = "conv-0") := by
  refine ⟨by decide, by decide, ?_⟩
  exact (dm_pair_unique_and_sym [.dm "alice" "bob"] "alice" "bob"
    ⟨"conv-0", "dm", ["alice", "bob"]⟩ (by decide) (by decide)).2

end TezitRelay
